import Mathlib

/-!
Verification of `shared_memory.h`, a single-producer / single-consumer IPC
transport over one POSIX shared-memory segment guarded by two named
semaphores, with a chunking layer (`send_item` / `recv_item`) on top.

The development is a shallow embedding of the C source:

* Platform constants fix the LP64 data model used by every POSIX target of
  the header (`sizeof(unsigned) = 4`, `sizeof(size_t) = 8`,
  `sizeof(void*) = 8`); `unsigned` arithmetic is modelled as `Nat` reduced
  `% 2^32`, `size_t` quantities as plain `Nat` (no `size_t` expression in
  the modelled paths can reach `2^64` on the inputs considered).
* The data path (`write_shared_memory`, `read_shared_memory`, `send_item`,
  `recv_item`) is modelled over a FIFO of fragments: the two-semaphore
  handshake serializes the channel, so the sequence of fragments consumed
  by the reader is exactly the sequence produced by the writer, one in
  flight at a time.  A failed `read_shared_memory` does not post the
  writer semaphore, so every later read blocks; the FIFO carries a
  `stalled` flag for this.
* The handshake itself (`hstep`, `run`) is a labelled transition system on
  the two semaphore counters plus counters of in-progress writers/readers.
* The lifecycle calls (`create_shared_memory`, `open_shared_memory`,
  `close_shared_memory`) are modelled over a registry of named semaphores
  and named shm objects with fault injection; `sem_open`/`shm_open` with
  `O_CREAT` (and no `O_EXCL`) attach to an existing object, ignoring the
  requested initial value, exactly as POSIX specifies.
* Heap allocation (`malloc` of the reassembly buffer) is modelled as
  always succeeding; allocation failure is considered separately in the
  semaphore-level model `read_sm`.
-/

namespace SharedMemory

/-- `MAX_BYTES` from the source (line 54): segment capacity. -/
def MAX_BYTES : Nat := 4000000

/-- `sizeof(unsigned)` on LP64. -/
def szUnsigned : Nat := 4

/-- `sizeof(size_t)` on LP64. -/
def szSizeT : Nat := 8

/-- `sizeof(void*)` on LP64. -/
def szPtr : Nat := 8

/-- Modulus of C `unsigned` (32 bits on LP64). -/
def UINT_MOD : Nat := 4294967296

/-- Modulus of C `size_t` (64 bits on LP64): `size_t` products such as the
`malloc(total_chunk * size_per_chunk)` argument in `recv_item` wrap at
`2^64`. -/
def SIZE_MOD : Nat := 18446744073709551616

/-- `static const size_t maxlen = MAX_BYTES - sizeof(unsigned) - sizeof(size_t) * 2 - sizeof(void *);`
(source line 56). -/
def maxlen : Nat := MAX_BYTES - szUnsigned - szSizeT * 2 - szPtr

/-- One fragment as materialized in the segment by `write_shared_memory`:
header fields `id` (the `unsigned id`), `flen` (the `size_t` length field),
`total` (the `size_t` total field), and the payload bytes that were
`memcpy`-ed behind the header. -/
structure Fragment where
  id : Nat
  flen : Nat
  total : Nat
  payload : List Nat
deriving DecidableEq

/-- `write_shared_memory` (source lines 163-185) at the data level: one
handshake-guarded transaction appending a fragment to the channel FIFO.
`data` is the byte sequence starting at the passed pointer; the four
`memcpy` calls store `id`, `len`, `total` and `len` payload bytes.  The
function body has no failing path and always returns `0`. -/
def write_shared_memory (q : List Fragment) (data : List Nat) (len id total : Nat) :
    Int × List Fragment :=
  (0, q ++ [{ id := id, flen := len, total := total, payload := data.take len }])

/-- Chunk count computed by `send_item` (source lines 227-232):
`chunks = 1; if (len > maxlen) chunks = len / maxlen; if (chunks * maxlen < len) ++chunks;`. -/
def sendChunks (len : Nat) : Nat :=
  let chunks := if len > maxlen then len / maxlen else 1
  if chunks * maxlen < len then chunks + 1 else chunks

/-- The fragment `send_item` writes at loop index `i` (source lines 234-237):
`ustart = i * maxlen`,
`ulen = chunks == 1 ? len : (i == chunks - 1 ? (len - (maxlen * i)) : maxlen)`,
id argument `(unsigned) i` (truncated mod `2^32`), total argument `chunks`. -/
def mkFrag (m : List Nat) (chunks i : Nat) : Fragment :=
  let ulen := if chunks = 1 then m.length else
    if i = chunks - 1 then m.length - maxlen * i else maxlen
  { id := i % UINT_MOD, flen := ulen, total := chunks,
    payload := (m.drop (i * maxlen)).take ulen }

/-- The `for` loop of `send_item` (source lines 234-241), as recursion on the
number `k` of remaining iterations (`i` is the current loop index): each
iteration performs one `write_shared_memory` and aborts with `1` if it
returned nonzero. -/
def sendLoop (m : List Nat) (chunks : Nat) : Nat → Nat → List Fragment → Int × List Fragment
  | 0, _, q => (0, q)
  | k + 1, i, q =>
    let ustart := i * maxlen
    let ulen := if chunks = 1 then m.length else
      if i = chunks - 1 then m.length - maxlen * i else maxlen
    let r := write_shared_memory q (m.drop ustart) ulen (i % UINT_MOD) chunks
    if r.1 ≠ 0 then (1, r.2) else sendLoop m chunks k (i + 1) r.2

/-- `send_item` (source lines 220-243): chunk the message and run the loop.
Returns the C return value together with the fragments pushed through the
channel. -/
def send_item (m : List Nat) : Int × List Fragment :=
  sendLoop m (sendChunks m.length) (sendChunks m.length) 0 []

/-- The fragment list produced by a send, in closed form. -/
def frags (m : List Nat) : List Fragment :=
  (List.range (sendChunks m.length)).map (mkFrag m (sendChunks m.length))

/-- Outcome of one `read_shared_memory` call (source lines 187-218): `ok`
carries the `len` bytes copied out of the segment plus the header fields;
`corrupt` is the `return 1` taken when `*len <= 0 || *len > MAX_BYTES`
(header fields were already stored through the out-parameters, no buffer
was allocated); `blocked` is `sem_wait(r_sem)` never returning. -/
inductive RRes where
  | ok (bytes : List Nat) (len : Nat) (total : Nat) (id : Nat)
  | corrupt (len : Nat) (total : Nat) (id : Nat)
  | blocked
deriving DecidableEq

/-- Bytes the reader's `memcpy(*data, ..., *len)` obtains from a segment
holding fragment `f`: the stored payload, padded (with the unspecified
bytes modelled as `0`) if the reported length exceeds the stored payload. -/
def segBytes (f : Fragment) : List Nat :=
  f.payload.take f.flen ++ List.replicate (f.flen - f.payload.length) 0

/-- `read_shared_memory` over the channel FIFO.  The `Bool` is the
`stalled` flag: a previous erroneous read consumed `r_sem` without posting
`w_sem` (source lines 206-212 return without the `sem_post` of line 216),
so the writer can never publish again and every later `sem_wait(r_sem)`
blocks.  Reading from an empty FIFO likewise blocks. -/
def read_shared_memory (st : Bool × List Fragment) : RRes × (Bool × List Fragment) :=
  match st with
  | (true, q) => (RRes.blocked, (true, q))
  | (false, []) => (RRes.blocked, (false, []))
  | (false, f :: rest) =>
    if f.flen = 0 ∨ f.flen > MAX_BYTES then
      (RRes.corrupt f.flen f.total f.id, (true, rest))
    else
      (RRes.ok (segBytes f) f.flen f.total f.id, (false, rest))

/-- `memcpy(buf + off, src, src.length)` on a byte buffer. -/
def writeAt (buf : List Nat) (off : Nat) (src : List Nat) : List Nat :=
  buf.take off ++ src ++ buf.drop (off + src.length)

/-- `memcpy(buf + off, src, src.length)` with the bound of the allocated
object: a copy that would run past the end of `buf` is a heap overflow -
undefined behavior in C - and yields `none`.  (For every input considered
the unwrapped offset agrees with the `size_t` offset computed by the
source up to the first out-of-bounds copy.) -/
def writeAtSafe (buf : List Nat) (off : Nat) (src : List Nat) : Option (List Nat) :=
  if off + src.length ≤ buf.length then some (writeAt buf off src) else none

/-- Observable outcome of `recv_item`: `ok data len` is `return 0` with
`*data`/`*len` delivering `data` of length `len`; `err` is `return 1`;
`blocked` means some inner `read_shared_memory` never returns;
`okDangling` is `return 0` after the output buffer was already freed
inside the middle loop (the use-after-free path opened by the missing
`return` at source line 274); `overflow` marks a `memcpy` past the end of
the allocated output buffer (undefined behavior in C, reachable because
the `malloc(total_chunk * size_per_chunk)` argument wraps mod `2^64`). -/
inductive RecvOut where
  | ok (data : List Nat) (len : Nat)
  | err
  | blocked
  | okDangling (len : Nat)
  | overflow
deriving DecidableEq

/-- Outcome of the middle loop: continue with channel state, buffer and
freed flag, or block, or hit a heap overflow. -/
inductive MidRes where
  | more (st : Bool × List Fragment) (buf : List Nat) (freed : Bool)
  | blocked
  | overflow
deriving DecidableEq

/-- The middle loop of `recv_item` (source lines 268-276),
`for (i = 1; i < total_chunk - 1; ++i)`, as recursion on the remaining
iteration count `k`.  Each iteration reads a fragment, `memcpy`s
`per_chunk_size` bytes at offset `i * size_per_chunk` (on the corrupt
path `_temp` was never assigned: the copied bytes are unspecified,
modelled as zeros; a copy past the end of the allocated buffer is
undefined behavior and yields `overflow`), frees the chunk buffer and,
when the read failed, frees the output buffer (`freed` flag) WITHOUT
returning - the loop continues, faithfully to the source. -/
def recvMid : Nat → (Bool × List Fragment) → List Nat → Nat → Nat → Bool → MidRes
  | 0, st, buf, _, _, freed => MidRes.more st buf freed
  | k + 1, st, buf, spc, i, freed =>
    match read_shared_memory st with
    | (RRes.blocked, _) => MidRes.blocked
    | (RRes.corrupt len _ _, st1) =>
      match writeAtSafe buf (i * spc) (List.replicate len 0) with
      | none => MidRes.overflow
      | some buf2 => recvMid k st1 buf2 spc (i + 1) true
    | (RRes.ok bytes _ _ _, st1) =>
      match writeAtSafe buf (i * spc) bytes with
      | none => MidRes.overflow
      | some buf2 => recvMid k st1 buf2 spc (i + 1) freed

/-- Tail of `recv_item` after the first fragment was read successfully
(source lines 264-291): allocate `total_chunk * size_per_chunk` bytes -
the product is computed in `size_t` and wraps mod `2^64` - copy the first
chunk, run the middle loop, then handle the last fragment.  Notes kept
from the source: the output buffer `malloc` is modelled as always
succeeding at the (wrapped) requested size (its result is not checked in
the source either); every `memcpy` into the output buffer that would run
past the wrapped allocation is a heap overflow, undefined behavior in C,
and yields `overflow`; after the middle loop the C index `i` equals
`max 1 (total_chunk - 1)`, so the last `memcpy` lands at offset
`(total_chunk - 1) * size_per_chunk`; on the last-read error path the
source `memcpy`s from the unassigned `_temp`, frees the output buffer and
returns `1`; the `realloc` shrink plus the returned `*len` (also a
wrapping `size_t` computation) expose exactly the first
`(total_chunk - 1) * size_per_chunk + per_chunk_size` bytes to the
caller. -/
def recvTail (st1 : Bool × List Fragment) (bytes : List Nat) (spc total : Nat) : RecvOut :=
  match writeAtSafe (List.replicate (total * spc % SIZE_MOD) 0) 0 bytes with
  | none => RecvOut.overflow
  | some buf0 =>
    match recvMid (total - 2) st1 buf0 spc 1 false with
    | MidRes.blocked => RecvOut.blocked
    | MidRes.overflow => RecvOut.overflow
    | MidRes.more st2 buf1 freed =>
      if 1 < total then
        match read_shared_memory st2 with
        | (RRes.blocked, _) => RecvOut.blocked
        | (RRes.corrupt _ _ _, _) => RecvOut.err
        | (RRes.ok bytes2 len2 _ _, _) =>
          match writeAtSafe buf1 ((total - 1) * spc) bytes2 with
          | none => RecvOut.overflow
          | some buf2 =>
            let tlen := ((total - 1) * spc + len2) % SIZE_MOD
            if freed then RecvOut.okDangling tlen
            else RecvOut.ok (buf2.take tlen) tlen
      else RecvOut.ok (buf1.take (total * spc % SIZE_MOD)) (total * spc % SIZE_MOD)

/-- `recv_item` (source lines 245-292) over the channel FIFO: one
handshake-guarded read of the first fragment - whose reported length
becomes `size_per_chunk` and whose total becomes `total_chunk` - then the
reassembly tail.  A failed first read frees the (never-assigned) `temp`
and returns `1`.  For `total_chunk = 0` the C loop bound
`total_chunk - 1` underflows `size_t`; no considered input has
`total_chunk = 0`. -/
def recv_item (st0 : Bool × List Fragment) : RecvOut :=
  match read_shared_memory st0 with
  | (RRes.blocked, _) => RecvOut.blocked
  | (RRes.corrupt _ _ _, _) => RecvOut.err
  | (RRes.ok bytes spc total _, st1) => recvTail st1 bytes spc total

/-- Failing input for the reassembly-abort policy: a three-fragment
message whose middle fragment header reports `fragment_length = 0`. -/
def corruptFrags : List Fragment :=
  [{ id := 0, flen := 10, total := 3, payload := List.replicate 10 7 },
   { id := 1, flen := 0, total := 3, payload := [] },
   { id := 2, flen := 10, total := 3, payload := List.replicate 10 9 }]

/-! ## Lifecycle model: named POSIX resources with fault injection -/

/-- Registry of OS-visible named objects: named semaphores (name, current
count) and named shared-memory objects. -/
structure OSState where
  sems : List (String × Nat)
  shms : List String
deriving DecidableEq

/-- Does a named semaphore exist? -/
def semHas (s : OSState) (n : String) : Bool :=
  s.sems.any (fun p => p.1 == n)

/-- Current count of a named semaphore, if it exists. -/
def semVal (s : OSState) (n : String) : Option Nat :=
  (s.sems.find? (fun p => p.1 == n)).map (fun p => p.2)

/-- Does a named shm object exist? -/
def shmHas (s : OSState) (n : String) : Bool :=
  s.shms.any (fun x => x == n)

/-- `sem_open(n, O_CREAT | O_RDWR, mode, v)`: with `O_CREAT` and no
`O_EXCL`, an existing semaphore is attached unchanged (the initial value
is ignored); otherwise one is created with count `v`. -/
def sem_open_creat (s : OSState) (n : String) (v : Nat) : OSState :=
  if semHas s n then s else { s with sems := s.sems ++ [(n, v)] }

/-- `sem_unlink(n)`: remove the name. -/
def sem_unlink (s : OSState) (n : String) : OSState :=
  { s with sems := s.sems.filter (fun p => !(p.1 == n)) }

/-- `shm_open(n, O_CREAT | O_RDWR, mode)`: attach or create. -/
def shm_open_creat (s : OSState) (n : String) : OSState :=
  if shmHas s n then s else { s with shms := s.shms ++ [n] }

/-- `shm_unlink(n)`: remove the name. -/
def shm_unlink (s : OSState) (n : String) : OSState :=
  { s with shms := s.shms.filter (fun x => !(x == n)) }

/-- Fault injection for the lifecycle calls: which OS call of a
`create_shared_memory` / `open_shared_memory` invocation fails.
`ftruncEinval` is the `errno == EINVAL` sub-case of a failing `ftruncate`
(taken on Darwin when the segment is already sized), which the source
routes around the error return via `goto`. -/
structure Faults where
  wsemFail : Bool
  rsemFail : Bool
  shmFail : Bool
  ftruncFail : Bool
  ftruncEinval : Bool
  mmapFail : Bool
deriving DecidableEq

/-- The no-fault oracle. -/
def noFaults : Faults :=
  { wsemFail := false, rsemFail := false, shmFail := false,
    ftruncFail := false, ftruncEinval := false, mmapFail := false }

/-- The empty registry. -/
def os0 : OSState := { sems := [], shms := [] }

/-- `create_shared_memory` (source lines 70-116) over the registry:
`sem_open(write, O_CREAT, 1)`, `sem_open(read, O_CREAT, 0)`,
`shm_open(name, O_CREAT)`, `ftruncate`, `mmap`, each with its exact
unlink sequence on failure (a failed open creates nothing, but the
source still unlinks the names it was given). -/
def create_shared_memory (f : Faults) (s0 : OSState) (name wname rname : String) :
    Int × OSState :=
  if f.wsemFail then (1, sem_unlink s0 wname)
  else
    let s1 := sem_open_creat s0 wname 1
    if f.rsemFail then (1, sem_unlink (sem_unlink s1 rname) wname)
    else
      let s2 := sem_open_creat s1 rname 0
      if f.shmFail then (1, shm_unlink (sem_unlink (sem_unlink s2 wname) rname) name)
      else
        let s3 := shm_open_creat s2 name
        if f.ftruncFail && !f.ftruncEinval then
          (1, sem_unlink (sem_unlink (shm_unlink s3 name) wname) rname)
        else if f.mmapFail then
          (1, shm_unlink (sem_unlink (sem_unlink s3 wname) rname) name)
        else (0, s3)

/-- `open_shared_memory` (source lines 118-161): textually the same call
sequence as create - `sem_open`/`shm_open` again pass `O_CREAT`, so
missing resources are silently created (initial counts 1 and 0) rather
than reported; only the unlink order of the `mmap` failure path differs. -/
def open_shared_memory (f : Faults) (s0 : OSState) (name wname rname : String) :
    Int × OSState :=
  if f.wsemFail then (1, sem_unlink s0 wname)
  else
    let s1 := sem_open_creat s0 wname 1
    if f.rsemFail then (1, sem_unlink (sem_unlink s1 wname) rname)
    else
      let s2 := sem_open_creat s1 rname 0
      if f.shmFail then (1, shm_unlink (sem_unlink (sem_unlink s2 wname) rname) name)
      else
        let s3 := shm_open_creat s2 name
        if f.ftruncFail && !f.ftruncEinval then
          (1, sem_unlink (sem_unlink (shm_unlink s3 name) wname) rname)
        else if f.mmapFail then
          (1, sem_unlink (sem_unlink (shm_unlink s3 name) wname) rname)
        else (0, s3)

/-- `close_shared_memory` (source lines 294-303): unlink all three names. -/
def close_shared_memory (s : OSState) (name wname rname : String) : OSState :=
  sem_unlink (sem_unlink (shm_unlink s name) wname) rname

/-! ## Handshake model: the two-semaphore protocol as a transition system -/

/-- Half-steps of the protocol: `beginWrite` = `sem_wait(w_sem)`,
`endWrite` = `sem_post(r_sem)`, `beginRead` = `sem_wait(r_sem)`,
`endRead` = `sem_post(w_sem)`. -/
inductive HS where
  | beginWrite | endWrite | beginRead | endRead
deriving DecidableEq

/-- Protocol state: the two semaphore counts `r` and `w` plus the number
of invocations currently between their begin and end half-steps (`iw`
writers in progress, `ir` readers in progress); any number of racing
producer/consumer invocations is allowed. -/
structure HState where
  r : Nat
  w : Nat
  iw : Nat
  ir : Nat
deriving DecidableEq

/-- Initial state after `create_shared_memory`: `(R, W) = (0, 1)`. -/
def hinit : HState := { r := 0, w := 1, iw := 0, ir := 0 }

/-- One half-step; `none` when the step is not enabled (`sem_wait` on a
zero semaphore blocks; an `end` half-step can only be taken by an
invocation that is in progress). -/
def hstep : HState → HS → Option HState
  | s, HS.beginWrite =>
    if s.w = 0 then none else some { r := s.r, w := s.w - 1, iw := s.iw + 1, ir := s.ir }
  | s, HS.endWrite =>
    if s.iw = 0 then none else some { r := s.r + 1, w := s.w, iw := s.iw - 1, ir := s.ir }
  | s, HS.beginRead =>
    if s.r = 0 then none else some { r := s.r - 1, w := s.w, iw := s.iw, ir := s.ir + 1 }
  | s, HS.endRead =>
    if s.ir = 0 then none else some { r := s.r, w := s.w + 1, iw := s.iw, ir := s.ir - 1 }

/-- Execute a trace of half-steps; `none` as soon as a step blocks. -/
def run : HState → List HS → Option HState
  | s, [] => some s
  | s, l :: tr =>
    match hstep s l with
    | none => none
    | some s2 => run s2 tr

/-- Completed operations of a trace: `endWrite` completes a write
(`true`), `endRead` completes a read (`false`). -/
def completions (tr : List HS) : List Bool :=
  tr.filterMap (fun l =>
    match l with
    | HS.endWrite => some true
    | HS.endRead => some false
    | _ => none)

/-- `altFromB e l`: the list `l` strictly alternates and starts with `e`. -/
def altFromB : Bool → List Bool → Bool
  | _, [] => true
  | e, b :: l => (b == e) && altFromB (!e) l

/-- `write_shared_memory` at the semaphore level, as one atomic
`sem_wait(w_sem); ...; sem_post(r_sem)` step: `none` when `sem_wait`
blocks; when it returns, the return value is always `0` (no statement of
the body can fail, source lines 163-185). -/
def write_sm (s : HState) : Option (Int × HState) :=
  if s.w = 0 then none
  else some (0, { r := s.r + 1, w := s.w - 1, iw := s.iw, ir := s.ir })

/-- `read_shared_memory` at the semaphore level: `sem_wait(r_sem)`, then
either an error return (corrupt header, source line 206, or failed
`malloc`, source line 210) WITHOUT the `sem_post(w_sem)`, or the normal
return after `sem_post(w_sem)`. -/
def read_sm (s : HState) (corruptHdr mallocFails : Bool) : Option (Int × HState) :=
  if s.r = 0 then none
  else if corruptHdr || mallocFails then
    some (1, { r := s.r - 1, w := s.w, iw := s.iw, ir := s.ir })
  else
    some (0, { r := s.r - 1, w := s.w + 1, iw := s.iw, ir := s.ir })

/-! ## Helper lemmas: the chunk arithmetic of `send_item` -/

theorem maxlen_eq : maxlen = 3999972 := by decide

theorem sendChunks_pos (L : Nat) : 1 ≤ sendChunks L := by
  have hm := maxlen_eq
  simp only [sendChunks, hm]
  split_ifs <;> omega

theorem sendChunks_mul_ge (L : Nat) (h : 0 < L) : L ≤ sendChunks L * maxlen := by
  have hm := maxlen_eq
  simp only [sendChunks, hm]
  split_ifs <;> omega

theorem sendChunks_pred_mul_lt (L : Nat) (h : 0 < L) : (sendChunks L - 1) * maxlen < L := by
  have hm := maxlen_eq
  simp only [sendChunks, hm]
  split_ifs <;> omega

theorem sendChunks_eq_one_of_le (L : Nat) (h : L ≤ maxlen) : sendChunks L = 1 := by
  have hm := maxlen_eq
  rw [hm] at h
  simp only [sendChunks, hm]
  split_ifs <;> omega

theorem le_maxlen_of_sendChunks_eq_one (L : Nat) (h : sendChunks L = 1) : L ≤ maxlen := by
  have hm := maxlen_eq
  rw [hm]
  simp only [sendChunks, hm] at h
  split_ifs at h <;> omega

theorem sendChunks_ceil (L : Nat) (h : 0 < L) :
    sendChunks L = (L + maxlen - 1) / maxlen := by
  have hm := maxlen_eq
  simp only [sendChunks, hm]
  split_ifs <;> omega

/-! ## Helper lemmas: the send loop in closed form -/

theorem sendLoop_spec (m : List Nat) (chunks : Nat) :
    ∀ k i q, sendLoop m chunks k i q = (0, q ++ (List.range' i k).map (mkFrag m chunks)) := by
  intro k
  induction k with
  | zero => intro i q; simp [sendLoop]
  | succ k ih =>
    intro i q
    rw [List.range'_succ]
    simp only [sendLoop, write_shared_memory, ih, List.map_cons]
    simp [mkFrag]

theorem send_item_eq (m : List Nat) : send_item m = (0, frags m) := by
  simp [send_item, frags, sendLoop_spec, List.range_eq_range']

theorem frags_length (m : List Nat) : (frags m).length = sendChunks m.length := by
  simp [frags]

/-! ## Helper lemmas: fragment shapes produced by a send -/

theorem mkFrag_single (m : List Nat) (i : Nat) :
    mkFrag m 1 i =
      Fragment.mk (i % UINT_MOD) m.length 1 ((m.drop (i * maxlen)).take m.length) := by
  simp [mkFrag]

theorem mkFrag_mid (m : List Nat) (c i : Nat) (hc : c ≠ 1) (hi : i ≠ c - 1) :
    mkFrag m c i =
      Fragment.mk (i % UINT_MOD) maxlen c ((m.drop (i * maxlen)).take maxlen) := by
  simp [mkFrag, hc, hi]

theorem mkFrag_last (m : List Nat) (c : Nat) (hc : c ≠ 1) :
    mkFrag m c (c - 1) =
      Fragment.mk ((c - 1) % UINT_MOD) (m.length - maxlen * (c - 1)) c
        ((m.drop ((c - 1) * maxlen)).take (m.length - maxlen * (c - 1))) := by
  simp [mkFrag, hc]

theorem segBytes_of_exact (f : Fragment) (h : f.payload.length = f.flen) :
    segBytes f = f.payload := by
  simp [segBytes, ← h, List.take_length]

/-! ## Helper lemmas: the named-resource registry -/

theorem any_filter_not_self (l : List (String × Nat)) (n : String) :
    (l.filter (fun p => !(p.1 == n))).any (fun p => p.1 == n) = false := by
  induction l with
  | nil => rfl
  | cons a l ih => by_cases h : a.1 == n <;> simp [List.filter_cons, h, ih]

theorem any_filter_not_self' (l : List String) (n : String) :
    (l.filter (fun x => !(x == n))).any (fun x => x == n) = false := by
  induction l with
  | nil => rfl
  | cons a l ih => by_cases h : a == n <;> simp [List.filter_cons, h, ih]

theorem semHas_unlink_self (s : OSState) (n : String) :
    semHas (sem_unlink s n) n = false := by
  simp only [semHas, sem_unlink]
  exact any_filter_not_self s.sems n

theorem shmHas_unlink_self (s : OSState) (n : String) :
    shmHas (shm_unlink s n) n = false := by
  simp only [shmHas, shm_unlink]
  exact any_filter_not_self' s.shms n

theorem semHas_unlink_false (s : OSState) (n n2 : String) (h : semHas s n = false) :
    semHas (sem_unlink s n2) n = false := by
  simp only [semHas, sem_unlink] at h ⊢
  rw [Bool.eq_false_iff] at h ⊢
  intro hc
  apply h
  simp only [List.any_eq_true, List.mem_filter] at hc ⊢
  obtain ⟨p, ⟨hp, _⟩, hq⟩ := hc
  exact ⟨p, hp, hq⟩

theorem shmHas_unlink_false (s : OSState) (n n2 : String) (h : shmHas s n = false) :
    shmHas (shm_unlink s n2) n = false := by
  simp only [shmHas, shm_unlink] at h ⊢
  rw [Bool.eq_false_iff] at h ⊢
  intro hc
  apply h
  simp only [List.any_eq_true, List.mem_filter] at hc ⊢
  obtain ⟨p, ⟨hp, _⟩, hq⟩ := hc
  exact ⟨p, hp, hq⟩

theorem semHas_shm_unlink (s : OSState) (n n2 : String) :
    semHas (shm_unlink s n2) n = semHas s n := rfl

theorem shmHas_sem_unlink (s : OSState) (n n2 : String) :
    shmHas (sem_unlink s n2) n = shmHas s n := rfl

theorem semHas_shm_open (s : OSState) (n n2 : String) :
    semHas (shm_open_creat s n2) n = semHas s n := by
  by_cases h : shmHas s n2 <;> simp [shm_open_creat, h, semHas]

theorem shmHas_sem_open (s : OSState) (n n2 : String) (v : Nat) :
    shmHas (sem_open_creat s n2 v) n = shmHas s n := by
  by_cases h : semHas s n2 <;> simp [sem_open_creat, h, shmHas]

theorem sem_open_creat_of_has (s : OSState) (n : String) (v : Nat) (h : semHas s n = true) :
    sem_open_creat s n v = s := by
  simp [sem_open_creat, h]

theorem shm_open_creat_of_has (s : OSState) (n : String) (h : shmHas s n = true) :
    shm_open_creat s n = s := by
  simp [shm_open_creat, h]

theorem semHas_open_self (s : OSState) (n : String) (v : Nat) :
    semHas (sem_open_creat s n v) n = true := by
  cases hb : semHas s n with
  | true => simp [sem_open_creat, hb]
  | false =>
    simp only [sem_open_creat, hb, Bool.false_eq_true, if_false]
    simp only [semHas, List.any_append]
    simp

theorem shmHas_open_self (s : OSState) (n : String) :
    shmHas (shm_open_creat s n) n = true := by
  cases hb : shmHas s n with
  | true => simp [shm_open_creat, hb]
  | false =>
    simp only [shm_open_creat, hb, Bool.false_eq_true, if_false]
    simp only [shmHas, List.any_append]
    simp

theorem semHas_open_mono (s : OSState) (n n2 : String) (v : Nat) (h : semHas s n = true) :
    semHas (sem_open_creat s n2 v) n = true := by
  cases hb : semHas s n2 with
  | true => simpa [sem_open_creat, hb]
  | false =>
    simp only [sem_open_creat, hb, Bool.false_eq_true, if_false]
    simp only [semHas, List.any_append] at h ⊢
    simp [h]

theorem shmHas_open_mono (s : OSState) (n n2 : String) (h : shmHas s n = true) :
    shmHas (shm_open_creat s n2) n = true := by
  cases hb : shmHas s n2 with
  | true => simpa [shm_open_creat, hb]
  | false =>
    simp only [shm_open_creat, hb, Bool.false_eq_true, if_false]
    simp only [shmHas, List.any_append] at h ⊢
    simp [h]

theorem semHas_open_other (s : OSState) (n n2 : String) (v : Nat)
    (hne : (n2 == n) = false) (h : semHas s n = false) :
    semHas (sem_open_creat s n2 v) n = false := by
  cases hb : semHas s n2 with
  | true => simpa [sem_open_creat, hb]
  | false =>
    simp only [sem_open_creat, hb, Bool.false_eq_true, if_false]
    simp only [semHas, List.any_append] at h ⊢
    simp [h, hne]

theorem semHas_of_semVal (s : OSState) (n : String) (v : Nat) (h : semVal s n = some v) :
    semHas s n = true := by
  simp only [semVal, Option.map_eq_some'] at h
  obtain ⟨p, hp, _⟩ := h
  have hmem := List.mem_of_find?_eq_some hp
  have hpred := List.find?_some hp
  simp only [semHas, List.any_eq_true]
  exact ⟨p, hmem, hpred⟩

theorem semVal_shm_open (s : OSState) (n n2 : String) :
    semVal (shm_open_creat s n2) n = semVal s n := by
  cases hb : shmHas s n2 with
  | true => simp [shm_open_creat, hb]
  | false => simp [shm_open_creat, hb, semVal]

theorem semVal_open_pres (s : OSState) (n n2 : String) (v v2 : Nat)
    (h : semVal s n = some v) :
    semVal (sem_open_creat s n2 v2) n = some v := by
  cases hb : semHas s n2 with
  | true => simpa [sem_open_creat, hb]
  | false =>
    simp only [sem_open_creat, hb, Bool.false_eq_true, if_false]
    simp only [semVal, Option.map_eq_some'] at h
    obtain ⟨p, hp, hv⟩ := h
    simp only [semVal, List.find?_append, hp]
    simp [Option.or, hv]

theorem semVal_open_absent (s : OSState) (n : String) (v : Nat) (h : semHas s n = false) :
    semVal (sem_open_creat s n v) n = some v := by
  simp only [sem_open_creat, h, Bool.false_eq_true, if_false]
  have hnone : s.sems.find? (fun p => p.1 == n) = none := by
    rw [List.find?_eq_none]
    intro p hp hc
    rw [Bool.eq_false_iff] at h
    exact h (by simp only [semHas, List.any_eq_true]; exact ⟨p, hp, hc⟩)
  simp only [semVal, List.find?_append, hnone, Option.none_or]
  simp [List.find?]

/-! ## Helper lemmas: the handshake transition system -/

/-- Total token count of a protocol state: semaphore permits plus
in-progress invocations. -/
def tokens (s : HState) : Nat := s.r + s.w + s.iw + s.ir

/-- Whose completion comes next: `true` while the single token sits on the
writer side (`w` permit available or a write in progress). -/
def wTurn (s : HState) : Bool := decide (0 < s.w + s.iw)

/-- Parity helper. -/
def evenB (n : Nat) : Bool := decide (n % 2 = 0)

theorem evenB_succ (n : Nat) : evenB (n + 1) = !(evenB n) := by
  by_cases h : n % 2 = 0
  · have h2 : (n + 1) % 2 = 1 := by omega
    simp [evenB, h, h2]
  · have h2 : (n + 1) % 2 = 0 := by omega
    simp [evenB, h, h2]

theorem run_inv_aux :
    ∀ (tr : List HS) (s0 s : HState), tokens s0 = 1 → run s0 tr = some s →
      tokens s = 1 ∧
      altFromB (wTurn s0) (completions tr) = true ∧
      wTurn s = (wTurn s0 == evenB (completions tr).length) := by
  intro tr
  induction tr with
  | nil =>
    intro s0 s h hr
    simp only [run, Option.some.injEq] at hr
    subst hr
    refine ⟨h, rfl, ?_⟩
    simp [completions, evenB]
  | cons l tr ih =>
    intro s0 s h hr
    simp only [run] at hr
    cases hl : hstep s0 l with
    | none => rw [hl] at hr; exact absurd hr (by simp)
    | some s1 =>
      rw [hl] at hr
      cases l with
      | beginWrite =>
        simp only [hstep] at hl
        split at hl
        · exact absurd hl (by simp)
        case isFalse hw =>
          have hs1 : s1 = HState.mk s0.r (s0.w - 1) (s0.iw + 1) s0.ir :=
            (Option.some.inj hl).symm
          have ht1 : tokens s1 = 1 := by
            simp only [tokens, hs1] at h ⊢; omega
          have hwt : wTurn s1 = wTurn s0 := by
            simp only [wTurn, hs1, decide_eq_decide]; omega
          obtain ⟨ha, hb, hc⟩ := ih s1 s ht1 hr
          have hcomp : completions (HS.beginWrite :: tr) = completions tr := by
            simp [completions]
          rw [hcomp, ← hwt]
          exact ⟨ha, hb, hc⟩
      | beginRead =>
        simp only [hstep] at hl
        split at hl
        · exact absurd hl (by simp)
        case isFalse hg =>
          have hs1 : s1 = HState.mk (s0.r - 1) s0.w s0.iw (s0.ir + 1) :=
            (Option.some.inj hl).symm
          have ht1 : tokens s1 = 1 := by
            simp only [tokens, hs1] at h ⊢; omega
          have hwt : wTurn s1 = wTurn s0 := by
            simp only [wTurn, hs1]
          obtain ⟨ha, hb, hc⟩ := ih s1 s ht1 hr
          have hcomp : completions (HS.beginRead :: tr) = completions tr := by
            simp [completions]
          rw [hcomp, ← hwt]
          exact ⟨ha, hb, hc⟩
      | endWrite =>
        simp only [hstep] at hl
        split at hl
        · exact absurd hl (by simp)
        case isFalse hg =>
          have hs1 : s1 = HState.mk (s0.r + 1) s0.w (s0.iw - 1) s0.ir :=
            (Option.some.inj hl).symm
          have ht1 : tokens s1 = 1 := by
            simp only [tokens, hs1] at h ⊢; omega
          have hfields : s0.w = 0 ∧ s0.iw = 1 ∧ s0.r = 0 ∧ s0.ir = 0 := by
            simp only [tokens] at h; omega
          have hwt0 : wTurn s0 = true := by
            simp only [wTurn, decide_eq_true_eq]; omega
          have hwt1 : wTurn s1 = false := by
            simp only [wTurn, hs1, decide_eq_false_iff_not]; omega
          obtain ⟨ha, hb, hc⟩ := ih s1 s ht1 hr
          have hcomp : completions (HS.endWrite :: tr) = true :: completions tr := by
            simp [completions]
          rw [hcomp, hwt0]
          refine ⟨ha, ?_, ?_⟩
          · rw [hwt1] at hb
            simp [altFromB, hb]
          · rw [hc, hwt1, List.length_cons, evenB_succ]
            simp
      | endRead =>
        simp only [hstep] at hl
        split at hl
        · exact absurd hl (by simp)
        case isFalse hg =>
          have hs1 : s1 = HState.mk s0.r (s0.w + 1) s0.iw (s0.ir - 1) :=
            (Option.some.inj hl).symm
          have ht1 : tokens s1 = 1 := by
            simp only [tokens, hs1] at h ⊢; omega
          have hfields : s0.w = 0 ∧ s0.iw = 0 ∧ s0.r = 0 ∧ s0.ir = 1 := by
            simp only [tokens] at h; omega
          have hwt0 : wTurn s0 = false := by
            simp only [wTurn, decide_eq_false_iff_not]; omega
          have hwt1 : wTurn s1 = true := by
            simp only [wTurn, hs1, decide_eq_true_eq]; omega
          obtain ⟨ha, hb, hc⟩ := ih s1 s ht1 hr
          have hcomp : completions (HS.endRead :: tr) = false :: completions tr := by
            simp [completions]
          rw [hcomp, hwt0]
          refine ⟨ha, ?_, ?_⟩
          · rw [hwt1] at hb
            simp [altFromB, hb]
          · rw [hc, hwt1, List.length_cons, evenB_succ]
            simp

theorem altFromB_chain :
    ∀ (l : List Bool) (e : Bool), altFromB e l = true →
      List.Chain' (fun a b => a ≠ b) l := by
  intro l
  induction l with
  | nil => intro e _; simp
  | cons b l ih =>
    intro e h
    simp only [altFromB, Bool.and_eq_true, beq_iff_eq] at h
    obtain ⟨rfl, h2⟩ := h
    cases l with
    | nil => simp
    | cons c l2 =>
      have h3 := h2
      simp only [altFromB, Bool.and_eq_true, beq_iff_eq] at h3
      obtain ⟨rfl, _⟩ := h3
      rw [List.chain'_cons]
      exact ⟨by simp, ih _ h2⟩

theorem hstep_stuck (l : HS) : hstep (HState.mk 0 0 0 0) l = none := by
  cases l <;> simp [hstep]

theorem run_stuck (tr : List HS) (h : tr ≠ []) :
    run (HState.mk 0 0 0 0) tr = none := by
  cases tr with
  | nil => exact absurd rfl h
  | cons l tr2 => simp [run, hstep_stuck]

/-! ## Helper lemmas: fault-free lifecycle runs -/

theorem create_noFaults (s : OSState) (n w r : String) :
    create_shared_memory noFaults s n w r =
      (0, shm_open_creat (sem_open_creat (sem_open_creat s w 1) r 0) n) := by
  simp [create_shared_memory, noFaults]

theorem open_noFaults (s : OSState) (n w r : String) :
    open_shared_memory noFaults s n w r =
      (0, shm_open_creat (sem_open_creat (sem_open_creat s w 1) r 0) n) := by
  simp [open_shared_memory, noFaults]

/-! ## Helper lemmas: reading and reassembling fragments -/

theorem length_segBytes (f : Fragment) : (segBytes f).length = f.flen := by
  simp only [segBytes, List.length_append, List.length_take, List.length_replicate]
  omega

theorem read_ok (f : Fragment) (q : List Fragment) (h0 : f.flen ≠ 0)
    (h1 : ¬f.flen > MAX_BYTES) :
    read_shared_memory (false, f :: q) =
      (RRes.ok (segBytes f) f.flen f.total f.id, (false, q)) := by
  simp [read_shared_memory, h0, h1]

theorem writeAt_aligned (A p : List Nat) (R off : Nat) (hoff : A.length = off) :
    writeAt (A ++ List.replicate R 0) off p =
      A ++ p ++ List.replicate (R - p.length) 0 := by
  unfold writeAt
  subst hoff
  rw [List.take_left' rfl, List.drop_append, List.drop_replicate, List.append_assoc]

theorem writeAt_zero_replicate (R : Nat) (p : List Nat) :
    writeAt (List.replicate R 0) 0 p = p ++ List.replicate (R - p.length) 0 := by
  unfold writeAt
  simp [List.drop_replicate]

theorem take_concat_drop_take (m : List Nat) (a b : Nat) :
    m.take a ++ (m.drop a).take b = m.take (a + b) := by
  rw [List.take_add]

theorem buf_step (m : List Nat) (i c : Nat) :
    m.take (i * maxlen) ++ (m.drop (i * maxlen)).take maxlen ++
      List.replicate ((c - i) * maxlen - maxlen) 0 =
      m.take ((i + 1) * maxlen) ++ List.replicate ((c - (i + 1)) * maxlen) 0 := by
  have h1 : m.take (i * maxlen) ++ (m.drop (i * maxlen)).take maxlen =
      m.take ((i + 1) * maxlen) := by
    rw [take_concat_drop_take, Nat.succ_mul]
  have h2 : (c - i) * maxlen - maxlen = (c - (i + 1)) * maxlen := by
    rw [maxlen_eq]
    omega
  rw [List.append_assoc, ← h1, h2, List.append_assoc]

theorem writeAtSafe_some (buf : List Nat) (off : Nat) (src : List Nat)
    (h : off + src.length ≤ buf.length) :
    writeAtSafe buf off src = some (writeAt buf off src) := by
  simp [writeAtSafe, h]

theorem recv_single (f : Fragment) (h0 : f.flen ≠ 0) (h1 : ¬f.flen > MAX_BYTES)
    (ht : f.total = 1) (hp : f.payload.length = f.flen) :
    recv_item (false, [f]) = RecvOut.ok f.payload f.flen := by
  unfold recv_item
  rw [read_ok f [] h0 h1]
  simp only [ht, segBytes_of_exact f hp]
  unfold recvTail
  have hmod : 1 * f.flen % SIZE_MOD = f.flen := by
    rw [one_mul]
    refine Nat.mod_eq_of_lt ?_
    show f.flen < 18446744073709551616
    have h2 : f.flen ≤ 4000000 := by
      have h3 : MAX_BYTES = 4000000 := rfl
      omega
    omega
  rw [hmod]
  have hw0 : writeAtSafe (List.replicate f.flen 0) 0 f.payload =
      some (writeAt (List.replicate f.flen 0) 0 f.payload) :=
    writeAtSafe_some _ _ _ (by simp [hp])
  simp only [hw0]
  norm_num [recvMid, writeAt_zero_replicate, hp, List.take_left' hp]

theorem recvMid_succ_ok (k : Nat) (st st1 : Bool × List Fragment) (buf buf2 : List Nat)
    (spc i : Nat) (freed : Bool) (bytes : List Nat) (len total idv : Nat)
    (h : read_shared_memory st = (RRes.ok bytes len total idv, st1))
    (hsafe : writeAtSafe buf (i * spc) bytes = some buf2) :
    recvMid (k + 1) st buf spc i freed = recvMid k st1 buf2 spc (i + 1) freed := by
  simp only [recvMid]
  rw [h]
  simp only [hsafe]

theorem mid_payload_length (m : List Nat) (c i : Nat)
    (h0 : 0 < m.length) (hc : sendChunks m.length = c) (hi : i + 1 ≤ c - 1) :
    ((m.drop (i * maxlen)).take maxlen).length = maxlen := by
  have h1 := sendChunks_pred_mul_lt m.length h0
  rw [hc] at h1
  simp only [List.length_take, List.length_drop]
  rw [maxlen_eq] at h1 ⊢
  omega

theorem recvMid_send (m : List Nat) (c : Nat) (h0 : 0 < m.length)
    (hc : sendChunks m.length = c) (hc2 : 2 ≤ c) :
    ∀ (k i : Nat), 1 ≤ i → i + k + 1 = c →
      recvMid k (false, (List.range' i (k + 1)).map (mkFrag m c))
          (m.take (i * maxlen) ++ List.replicate ((c - i) * maxlen) 0) maxlen i false =
        MidRes.more (false, [mkFrag m c (c - 1)])
          (m.take ((c - 1) * maxlen) ++ List.replicate maxlen 0) false := by
  intro k
  induction k with
  | zero =>
    intro i h1 h2
    have hie : i = c - 1 := by omega
    subst hie
    have hcc : (c - (c - 1)) * maxlen = maxlen := by
      rw [maxlen_eq]
      omega
    rw [hcc]
    simp [recvMid, List.range'_one]
  | succ k ih =>
    intro i h1 h2
    have hc1 : c ≠ 1 := by omega
    have hine : i ≠ c - 1 := by omega
    rw [List.range'_succ, List.map_cons, mkFrag_mid m c i hc1 hine]
    have hplen : ((m.drop (i * maxlen)).take maxlen).length = maxlen :=
      mid_payload_length m c i h0 hc (by omega)
    have hread : read_shared_memory (false,
        Fragment.mk (i % UINT_MOD) maxlen c ((m.drop (i * maxlen)).take maxlen) ::
          (List.range' (i + 1) (k + 1)).map (mkFrag m c)) =
        (RRes.ok ((m.drop (i * maxlen)).take maxlen) maxlen c (i % UINT_MOD),
          (false, (List.range' (i + 1) (k + 1)).map (mkFrag m c))) := by
      rw [read_ok _ _ (by show maxlen ≠ 0; decide) (by show ¬maxlen > MAX_BYTES; decide)]
      rw [segBytes_of_exact _ hplen]
    have hlt := sendChunks_pred_mul_lt m.length h0
    rw [hc] at hlt
    have hAlen : (m.take (i * maxlen)).length = i * maxlen := by
      simp only [List.length_take]
      rw [maxlen_eq] at hlt ⊢
      omega
    have hbound : i * maxlen + ((m.drop (i * maxlen)).take maxlen).length ≤
        (m.take (i * maxlen) ++ List.replicate ((c - i) * maxlen) 0).length := by
      rw [hplen, List.length_append, hAlen, List.length_replicate]
      rw [maxlen_eq]
      omega
    rw [recvMid_succ_ok _ _ _ _ _ _ _ _ _ _ _ _ hread (writeAtSafe_some _ _ _ hbound)]
    rw [writeAt_aligned _ _ _ _ hAlen, hplen, buf_step]
    exact ih (i + 1) (by omega) (by omega)

theorem recv_item_first_ok (f : Fragment) (q : List Fragment) (h0 : f.flen ≠ 0)
    (h1 : ¬f.flen > MAX_BYTES) :
    recv_item (false, f :: q) = recvTail (false, q) (segBytes f) f.flen f.total := by
  unfold recv_item
  rw [read_ok f q h0 h1]

theorem recvTail_send (m : List Nat) (c : Nat) (h0 : 0 < m.length)
    (hc : sendChunks m.length = c) (hc2 : 2 ≤ c) (hfit : c * maxlen < SIZE_MOD) :
    recvTail (false, (List.range' 1 (c - 1)).map (mkFrag m c)) (m.take maxlen) maxlen c =
      RecvOut.ok m m.length := by
  have hlt := sendChunks_pred_mul_lt m.length h0
  have hle := sendChunks_mul_ge m.length h0
  rw [hc] at hlt hle
  unfold recvTail
  have hmod : c * maxlen % SIZE_MOD = c * maxlen := Nat.mod_eq_of_lt hfit
  rw [hmod]
  have hml : (m.take maxlen).length = maxlen := by
    simp only [List.length_take]
    rw [maxlen_eq] at hlt ⊢
    omega
  have hw0 : writeAtSafe (List.replicate (c * maxlen) 0) 0 (m.take maxlen) =
      some (writeAt (List.replicate (c * maxlen) 0) 0 (m.take maxlen)) := by
    refine writeAtSafe_some _ _ _ ?_
    rw [hml, List.length_replicate]
    rw [maxlen_eq]
    omega
  simp only [hw0]
  rw [writeAt_zero_replicate, hml]
  have hbuf : m.take maxlen ++ List.replicate (c * maxlen - maxlen) 0 =
      m.take (1 * maxlen) ++ List.replicate ((c - 1) * maxlen) 0 := by
    rw [one_mul]
    have h2 : c * maxlen - maxlen = (c - 1) * maxlen := by
      rw [maxlen_eq]; omega
    rw [h2]
  rw [hbuf]
  have hmid := recvMid_send m c h0 hc hc2 (c - 2) 1 (Nat.le_refl 1) (by omega)
  rw [show c - 2 + 1 = c - 1 from by omega] at hmid
  simp only [hmid]
  simp only [show (1 < c) = True from by simp; omega, if_true]
  rw [mkFrag_last m c (by omega)]
  have hplen : ((m.drop ((c - 1) * maxlen)).take (m.length - maxlen * (c - 1))).length =
      m.length - maxlen * (c - 1) := by
    simp only [List.length_take, List.length_drop]
    rw [maxlen_eq] at hlt ⊢
    omega
  have hread : read_shared_memory (false,
      [Fragment.mk ((c - 1) % UINT_MOD) (m.length - maxlen * (c - 1)) c
        ((m.drop ((c - 1) * maxlen)).take (m.length - maxlen * (c - 1)))]) =
      (RRes.ok ((m.drop ((c - 1) * maxlen)).take (m.length - maxlen * (c - 1)))
        (m.length - maxlen * (c - 1)) c ((c - 1) % UINT_MOD), (false, [])) := by
    rw [read_ok _ _ ?hg0 ?hg1]
    · rw [segBytes_of_exact _ hplen]
    case hg0 =>
      show m.length - maxlen * (c - 1) ≠ 0
      rw [maxlen_eq] at hlt ⊢
      omega
    case hg1 =>
      show ¬m.length - maxlen * (c - 1) > MAX_BYTES
      have hMB : MAX_BYTES = 4000000 := rfl
      rw [maxlen_eq] at hle ⊢
      rw [hMB]
      omega
  simp only [hread]
  have hAlen : (m.take ((c - 1) * maxlen)).length = (c - 1) * maxlen := by
    simp only [List.length_take]
    rw [maxlen_eq] at hlt ⊢
    omega
  have hbound2 : (c - 1) * maxlen +
      ((m.drop ((c - 1) * maxlen)).take (m.length - maxlen * (c - 1))).length ≤
      (m.take ((c - 1) * maxlen) ++ List.replicate maxlen 0).length := by
    rw [hplen, List.length_append, hAlen, List.length_replicate]
    rw [maxlen_eq] at hle ⊢
    omega
  simp only [writeAtSafe_some _ _ _ hbound2]
  rw [writeAt_aligned _ _ _ _ hAlen]
  have hAPlen : (m.take ((c - 1) * maxlen) ++
      (m.drop ((c - 1) * maxlen)).take (m.length - maxlen * (c - 1))).length =
      (c - 1) * maxlen + (m.length - maxlen * (c - 1)) := by
    rw [List.length_append, hAlen, hplen]
  have hidx : (c - 1) * maxlen + (m.length - maxlen * (c - 1)) = m.length := by
    rw [maxlen_eq] at hlt ⊢
    omega
  have htl : ((c - 1) * maxlen + (m.length - maxlen * (c - 1))) % SIZE_MOD = m.length := by
    rw [hidx]
    exact Nat.mod_eq_of_lt (lt_of_le_of_lt hle hfit)
  simp only [Bool.false_eq_true, if_false, htl]
  rw [hidx] at hAPlen
  rw [List.take_left' hAPlen, take_concat_drop_take, hidx, List.take_length]

/-! ## Claim theorems -/

theorem recv_item_send_multi (m : List Nat) (c : Nat) (h0 : 0 < m.length)
    (hc : sendChunks m.length = c) (hc2 : 2 ≤ c) :
    recv_item (false, frags m) =
      recvTail (false, (List.range' 1 (c - 1)).map (mkFrag m c)) (m.take maxlen) maxlen c := by
  have hfr0 : frags m = (List.range c).map (mkFrag m c) := by
    simp only [frags, hc]
  rw [hfr0]
  have hc1 : c ≠ 1 := by omega
  have hsplit : List.range c = 0 :: List.range' 1 (c - 1) := by
    rw [List.range_eq_range']
    conv_lhs => rw [show c = (c - 1) + 1 from by omega]
    rw [List.range'_succ]
  rw [hsplit, List.map_cons, mkFrag_mid m c 0 hc1 (by omega)]
  have hpay0 : (m.drop (0 * maxlen)).take maxlen = m.take maxlen := by
    simp
  rw [hpay0]
  have hplen0 : (m.take maxlen).length = maxlen := by
    have hlt := sendChunks_pred_mul_lt m.length h0
    rw [hc] at hlt
    simp only [List.length_take]
    rw [maxlen_eq] at hlt ⊢
    omega
  rw [recv_item_first_ok _ _ (by show maxlen ≠ 0; decide)
    (by show ¬maxlen > MAX_BYTES; decide)]
  rw [segBytes_of_exact _ hplen0]

theorem recvTail_overflow_first (st1 : Bool × List Fragment) (bytes : List Nat)
    (spc total : Nat) (hov : ¬(0 + bytes.length ≤ total * spc % SIZE_MOD)) :
    recvTail st1 bytes spc total = RecvOut.overflow := by
  unfold recvTail
  have hw : writeAtSafe (List.replicate (total * spc % SIZE_MOD) 0) 0 bytes = none := by
    simp only [writeAtSafe, List.length_replicate]
    exact if_neg hov
  simp only [hw]

/-- C1, counterexample: the round-trip law as universally stated fails on
the program.  `recv_item` computes `malloc(total_chunk * size_per_chunk)`
in wrapping `size_t`: for the `size_t`-representable length
`2^64 - 1964355` the chunk count is `4611718300456`, the product
`4611718300456 * maxlen = 2^64 + 2035616` wraps to a `2035616`-byte
allocation, and the very first `memcpy` of `maxlen = 3999972` bytes
overflows it (undefined behavior, modelled as `RecvOut.overflow`) - the
receive cannot reproduce the message. -/
theorem C1_counterexample :
    recv_item (false, (send_item (List.replicate (SIZE_MOD - 1964355) 0)).2) =
      RecvOut.overflow ∧
    RecvOut.overflow ≠
      RecvOut.ok (List.replicate (SIZE_MOD - 1964355) (0 : Nat))
        (List.replicate (SIZE_MOD - 1964355) (0 : Nat)).length := by
  refine ⟨?_, fun hcon => RecvOut.noConfusion hcon⟩
  have hlen : (List.replicate (SIZE_MOD - 1964355) (0 : Nat)).length =
      SIZE_MOD - 1964355 := List.length_replicate _ _
  have h0 : 0 < (List.replicate (SIZE_MOD - 1964355) (0 : Nat)).length := by
    rw [hlen]
    decide
  have hsc : sendChunks (List.replicate (SIZE_MOD - 1964355) (0 : Nat)).length =
      4611718300456 := by
    rw [hlen]
    have hm := maxlen_eq
    have hS : SIZE_MOD = 18446744073709551616 := rfl
    simp only [sendChunks, hm, hS]
    split_ifs <;> omega
  have hq : (send_item (List.replicate (SIZE_MOD - 1964355) (0 : Nat))).2 =
      frags (List.replicate (SIZE_MOD - 1964355) 0) := by
    rw [send_item_eq]
  rw [hq, recv_item_send_multi _ 4611718300456 h0 hsc (by omega)]
  refine recvTail_overflow_first _ _ _ _ ?_
  have hmodbad : (4611718300456 : Nat) * maxlen % SIZE_MOD = 2035616 := by
    rw [maxlen_eq]
    rfl
  have hml1 : ((List.replicate (SIZE_MOD - 1964355) (0 : Nat)).take maxlen).length =
      maxlen := by
    simp only [List.length_take, hlen]
    have hS : SIZE_MOD = 18446744073709551616 := rfl
    rw [maxlen_eq, hS]
    omega
  rw [hmodbad, hml1, maxlen_eq]
  omega

/-- C1, amended: round-trip law on the lengths whose reassembly
allocation does not wrap `size_t` - for every byte sequence `m` with
`0 < len m ≤ 2^64 - 1964356` (equivalently, chunk count times `maxlen`
below `2^64`; every physically realizable message satisfies this), a
`send_item` of `m` followed by the matching `recv_item` on the other end
of a correctly paired channel returns `m` exactly, with the returned
length equal to `len m`.  This covers in particular the lengths 1,
`maxlen`, `maxlen + 1` and `3 * maxlen + 17` named by the claim. -/
theorem C1_round_trip (m : List Nat) (h : 0 < m.length)
    (hfit : m.length ≤ SIZE_MOD - 1964356) :
    recv_item (false, (send_item m).2) = RecvOut.ok m m.length := by
  have hq : (send_item m).2 = frags m := by rw [send_item_eq]
  rw [hq]
  obtain ⟨c, hc⟩ : ∃ c, sendChunks m.length = c := ⟨_, rfl⟩
  by_cases hc1 : c = 1
  · subst hc1
    have hfr : frags m = [mkFrag m 1 0] := by
      simp only [frags, hc]
      rfl
    have hpay : mkFrag m 1 0 = Fragment.mk 0 m.length 1 m := by
      rw [mkFrag_single]
      simp
    have h4 : ¬m.length > MAX_BYTES := by
      have h5 := le_maxlen_of_sendChunks_eq_one m.length hc
      rw [maxlen_eq] at h5
      show ¬m.length > 4000000
      omega
    rw [hfr, hpay]
    exact recv_single _ (by show m.length ≠ 0; omega) h4 rfl rfl
  · have hc2 : 2 ≤ c := by
      have := sendChunks_pos m.length
      omega
    have hcfit : c * maxlen < SIZE_MOD := by
      have hlt := sendChunks_pred_mul_lt m.length h
      rw [hc] at hlt
      have hS : SIZE_MOD = 18446744073709551616 := rfl
      rw [maxlen_eq] at hlt ⊢
      rw [hS] at hfit ⊢
      omega
    rw [recv_item_send_multi m c h hc hc2]
    exact recvTail_send m c h hc hc2 hcfit

/-- Witness for C1's amended claim at the one-byte message `[42]`. -/
theorem C1_round_trip_witness :
    0 < ([42] : List Nat).length ∧
    recv_item (false, (send_item [42]).2) = RecvOut.ok [42] 1 :=
  ⟨by decide, C1_round_trip [42] (by decide) (by decide)⟩

theorem frags_getD (m : List Nat) (i : Nat) (d : Fragment)
    (hi : i < sendChunks m.length) :
    (frags m).getD i d = mkFrag m (sendChunks m.length) i := by
  rw [frags, List.getD_eq_getElem?_getD, List.getElem?_map, List.getElem?_range hi]
  rfl

/-- C7, counterexample: `send_item` passes the loop index through the cast
`(unsigned) i`, so `message_id = i mod 2^32`, not `i`: for the payload of
length `2^32 * maxlen + 1` (representable in `size_t`), the fragment at
index `2^32` exists (there are `2^32 + 1` fragments) but carries
`message_id = 0`, not `2^32`. -/
theorem C7_counterexample :
    (send_item (List.replicate (4294967296 * maxlen + 1) 0)).2.length = 4294967297 ∧
    ((send_item (List.replicate (4294967296 * maxlen + 1) 0)).2.getD 4294967296
      (Fragment.mk 0 0 0 [])).id = 0 ∧
    (0 : Nat) ≠ 4294967296 := by
  have hq : (send_item (List.replicate (4294967296 * maxlen + 1) (0 : Nat))).2 =
      frags (List.replicate (4294967296 * maxlen + 1) 0) := by
    rw [send_item_eq]
  have hsc : sendChunks (List.replicate (4294967296 * maxlen + 1) (0 : Nat)).length =
      4294967297 := by
    rw [List.length_replicate]
    have hm := maxlen_eq
    rw [hm]
    simp only [sendChunks, hm]
    split_ifs <;> omega
  refine ⟨?_, ?_, by omega⟩
  · rw [hq, frags_length, hsc]
  · rw [hq, frags_getD _ _ _ (by rw [hsc]; omega)]
    simp [mkFrag, UINT_MOD]

/-- C7, amended: for every payload length `L > 0`, `send_item` partitions
the message into exactly `ceil(L / maxlen)` fragments (at least one); the
fragment at index `i` carries `message_id = i mod 2^32` (the `(unsigned)`
cast truncates; this equals `i` whenever the fragment count is at most
`2^32`) and `fragment_count` equal to the fragment count; every fragment
except the last carries exactly `maxlen` bytes, and the last carries the
remainder `L - maxlen * (count - 1)`, which equals `maxlen` when `L` is
an exact multiple of `maxlen`. -/
theorem C7_amended (m : List Nat) (h : 0 < m.length) :
    (send_item m).2.length = (m.length + maxlen - 1) / maxlen ∧
    1 ≤ (send_item m).2.length ∧
    ∀ i, i < (send_item m).2.length →
      ((send_item m).2.getD i (Fragment.mk 0 0 0 [])).id = i % UINT_MOD ∧
      ((send_item m).2.getD i (Fragment.mk 0 0 0 [])).total = (send_item m).2.length ∧
      (i < (send_item m).2.length - 1 →
        ((send_item m).2.getD i (Fragment.mk 0 0 0 [])).flen = maxlen ∧
        ((send_item m).2.getD i (Fragment.mk 0 0 0 [])).payload.length = maxlen) ∧
      (i = (send_item m).2.length - 1 →
        ((send_item m).2.getD i (Fragment.mk 0 0 0 [])).flen = m.length - maxlen * i ∧
        ((send_item m).2.getD i (Fragment.mk 0 0 0 [])).payload.length =
          m.length - maxlen * i ∧
        (m.length % maxlen = 0 →
          ((send_item m).2.getD i (Fragment.mk 0 0 0 [])).flen = maxlen)) := by
  have hq : (send_item m).2 = frags m := by rw [send_item_eq]
  rw [hq, frags_length]
  refine ⟨sendChunks_ceil m.length h, sendChunks_pos m.length, ?_⟩
  intro i hi
  rw [frags_getD m i _ hi]
  obtain ⟨c, hc⟩ : ∃ c, sendChunks m.length = c := ⟨_, rfl⟩
  rw [hc] at hi ⊢
  have hlt := sendChunks_pred_mul_lt m.length h
  have hle := sendChunks_mul_ge m.length h
  rw [hc] at hlt hle
  refine ⟨rfl, ?_, ?_, ?_⟩
  · show c = c
    rfl
  · intro hmid
    have hc1 : c ≠ 1 := by omega
    have hine : i ≠ c - 1 := by omega
    rw [mkFrag_mid m c i hc1 hine]
    exact ⟨rfl, mid_payload_length m c i h hc (by omega)⟩
  · intro hlast
    subst hlast
    by_cases hc1 : c = 1
    · subst hc1
      have hle1 := le_maxlen_of_sendChunks_eq_one m.length hc
      refine ⟨?_, ?_, ?_⟩
      · simp [mkFrag]
      · simp [mkFrag, List.length_take]
      · intro hmod
        rw [mkFrag_single]
        show m.length = maxlen
        rw [maxlen_eq] at hle1 hmod ⊢
        omega
    · rw [mkFrag_last m c hc1]
      refine ⟨rfl, ?_, ?_⟩
      · simp only [List.length_take, List.length_drop]
        rw [maxlen_eq] at hlt ⊢
        omega
      · intro hmod
        show m.length - maxlen * (c - 1) = maxlen
        rw [maxlen_eq] at hlt hle hmod ⊢
        omega

/-- Witness for C7's amended claim at the two-byte payload. -/
theorem C7_amended_witness :
    (send_item [7, 9]).2.length = (2 + maxlen - 1) / maxlen ∧
    1 ≤ (send_item [7, 9]).2.length ∧
    ((send_item [7, 9]).2.getD 0 (Fragment.mk 0 0 0 [])).id = 0 % UINT_MOD ∧
    ((send_item [7, 9]).2.getD 0 (Fragment.mk 0 0 0 [])).total =
      (send_item [7, 9]).2.length :=
  ⟨(C7_amended [7, 9] (by decide)).1,
   (C7_amended [7, 9] (by decide)).2.1,
   ((C7_amended [7, 9] (by decide)).2.2 0 (by decide)).1,
   ((C7_amended [7, 9] (by decide)).2.2 0 (by decide)).2.1⟩

/-- C3: modelling the two semaphore counts as a state `(R, W)` with initial
state `(0, 1)` and the begin/end half-steps of `write_shared_memory` and
`read_shared_memory`, every reachable state has `(R, W)` among `(0, 1)`,
`(0, 0)`, `(1, 0)` - in particular `(1, 1)` is never reached - and in every
trace the completed writes and reads strictly alternate starting with a
write, with no two writes and no two reads adjacent. -/
theorem C3_handshake_invariant (tr : List HS) (s : HState)
    (hrun : run hinit tr = some s) :
    ((s.r = 0 ∧ s.w = 1) ∨ (s.r = 0 ∧ s.w = 0) ∨ (s.r = 1 ∧ s.w = 0)) ∧
    ¬(s.r = 1 ∧ s.w = 1) ∧
    altFromB true (completions tr) = true ∧
    List.Chain' (fun a b => a ≠ b) (completions tr) := by
  have h0 : tokens hinit = 1 := by simp [tokens, hinit]
  obtain ⟨ht, hb, _⟩ := run_inv_aux tr hinit s h0 hrun
  have hw : wTurn hinit = true := by simp [wTurn, hinit]
  rw [hw] at hb
  simp only [tokens] at ht
  exact ⟨by omega, by omega, hb, altFromB_chain _ _ hb⟩

/-- Witness for C3 at the concrete trace `beginWrite, endWrite`. -/
theorem C3_handshake_invariant_witness :
    (((1 : Nat) = 0 ∧ (0 : Nat) = 1) ∨ ((1 : Nat) = 0 ∧ (0 : Nat) = 0) ∨
      ((1 : Nat) = 1 ∧ (0 : Nat) = 0)) ∧
    ¬((1 : Nat) = 1 ∧ (0 : Nat) = 1) ∧
    altFromB true (completions [HS.beginWrite, HS.endWrite]) = true ∧
    List.Chain' (fun a b => a ≠ b) (completions [HS.beginWrite, HS.endWrite]) :=
  C3_handshake_invariant [HS.beginWrite, HS.endWrite] (HState.mk 1 0 0 0) rfl

/-- C9 (implicit): every error return of `read_shared_memory` (corrupt
header or failed allocation) happens after `sem_wait(r_sem)` and skips
`sem_post(w_sem)`: from the only reachable readable state `(1, 0)` it
leaves the handshake in `(0, 0)`, from which every subsequent
`write_shared_memory`, every subsequent `read_shared_memory` and indeed
every half-step trace blocks forever. -/
theorem C9_error_deadlock (tr : List HS) (s : HState)
    (hrun : run hinit tr = some s) (hready : 0 < s.r)
    (c mf : Bool) (herr : (c || mf) = true) :
    s = HState.mk 1 0 0 0 ∧
    read_sm s c mf = some (1, HState.mk 0 0 0 0) ∧
    write_sm (HState.mk 0 0 0 0) = none ∧
    read_sm (HState.mk 0 0 0 0) c mf = none ∧
    (∀ tr2, tr2 ≠ [] → run (HState.mk 0 0 0 0) tr2 = none) := by
  have h0 : tokens hinit = 1 := by simp [tokens, hinit]
  obtain ⟨ht, _, _⟩ := run_inv_aux tr hinit s h0 hrun
  simp only [tokens] at ht
  have hs : s = HState.mk 1 0 0 0 := by
    cases s
    simp only [HState.mk.injEq]
    simp only [] at ht hready
    omega
  refine ⟨hs, ?_, by simp [write_sm], by simp [read_sm], run_stuck⟩
  rw [hs]
  simp [read_sm, herr]

/-- Witness for C9 at the trace `beginWrite, endWrite` and a corrupt
header. -/
theorem C9_error_deadlock_witness :
    read_sm (HState.mk 1 0 0 0) true false = some (1, HState.mk 0 0 0 0) ∧
    run (HState.mk 0 0 0 0) [HS.beginRead] = none :=
  ⟨(C9_error_deadlock [HS.beginWrite, HS.endWrite] (HState.mk 1 0 0 0) rfl
      (by decide) true false rfl).2.1,
   (C9_error_deadlock [HS.beginWrite, HS.endWrite] (HState.mk 1 0 0 0) rfl
      (by decide) true false rfl).2.2.2.2 [HS.beginRead] (by simp)⟩

/-- C10 (implicit): `write_shared_memory` has no failing return path -
whenever it returns, it returns `0` - and consequently `send_item` returns
`0` on every payload. -/
theorem C10_send_never_fails :
    (∀ (s : HState) (p : Int × HState), write_sm s = some p → p.1 = 0) ∧
    (∀ m : List Nat, (send_item m).1 = 0) := by
  constructor
  · intro s p h
    unfold write_sm at h
    split at h
    · exact absurd h (by simp)
    · rw [← Option.some.inj h]
  · intro m
    rw [send_item_eq]

/-- Witness for C10 at the writable state and the one-byte payload. -/
theorem C10_send_never_fails_witness :
    ((0 : Int), HState.mk 1 0 0 0).1 = 0 ∧ (send_item [1]).1 = 0 :=
  ⟨C10_send_never_fails.1 (HState.mk 0 1 0 0) ((0 : Int), HState.mk 1 0 0 0) rfl,
   C10_send_never_fails.2 [1]⟩

/-- C6, counterexample: the per-fragment payload limit `maxlen` used for
chunking does NOT equal capacity minus the header size (the header being
`message_id` plus two size fields): the source additionally subtracts
`sizeof(void *)`, so `maxlen = 3999972` while `C - header_size = 3999980`. -/
theorem C6_counterexample : maxlen ≠ MAX_BYTES - (szUnsigned + szSizeT * 2) := by
  decide

/-- C6, amended: `maxlen` equals capacity minus header size minus
`sizeof(void *)` (hence is strictly below the claimed bound), and every
fragment length produced by `send_item` does satisfy
`0 < fragment_length ≤ C - header_size`, the bound asserted by
`write_shared_memory`. -/
theorem C6_amended :
    maxlen = MAX_BYTES - szUnsigned - szSizeT * 2 - szPtr ∧
    maxlen < MAX_BYTES - (szUnsigned + szSizeT * 2) ∧
    ∀ (m : List Nat), 0 < m.length →
      ∀ f ∈ (send_item m).2,
        0 < f.flen ∧ f.flen ≤ MAX_BYTES - (szUnsigned + szSizeT * 2) := by
  refine ⟨rfl, by decide, ?_⟩
  intro m hm f hf
  rw [send_item_eq] at hf
  simp only [frags, List.mem_map, List.mem_range] at hf
  obtain ⟨i, hi, rfl⟩ := hf
  have h1 := sendChunks_pred_mul_lt m.length hm
  have h2 := sendChunks_mul_ge m.length hm
  have hMB : MAX_BYTES - (szUnsigned + szSizeT * 2) = 3999980 := by decide
  have hml := maxlen_eq
  simp only [mkFrag]
  rw [hMB, hml]
  rw [hml] at h1 h2
  split_ifs with hc hl
  · have h3 := le_maxlen_of_sendChunks_eq_one m.length hc
    rw [hml] at h3
    omega
  · subst hl
    omega
  · omega

/-- Witness for C6's amended claim at the three-byte payload. -/
theorem C6_amended_witness :
    maxlen = MAX_BYTES - szUnsigned - szSizeT * 2 - szPtr ∧
    0 < ([1, 2, 3] : List Nat).length ∧
    ∀ f ∈ (send_item [1, 2, 3]).2,
      0 < f.flen ∧ f.flen ≤ MAX_BYTES - (szUnsigned + szSizeT * 2) :=
  ⟨C6_amended.1, by decide, C6_amended.2.2 [1, 2, 3] (by decide)⟩

/-- C2: evaluation at the failing input - a three-fragment message whose
middle fragment reports `fragment_length = 0`.  `recv_item` does not abort
with an error: the middle loop frees the output buffer but has no
`return`, the failed read left the handshake unposted, and the next read
blocks forever, so the call never returns at all (and had reads been able
to continue, it would have returned success over a freed buffer). -/
theorem C2_middle_corrupt_no_abort :
    recv_item (false, corruptFrags) = RecvOut.blocked ∧
    RecvOut.blocked ≠ RecvOut.err := by
  exact ⟨rfl, by decide⟩

/-- C4, counterexample: a second `create_shared_memory` with the identical
name triple and no intervening destroy returns `0` (success), not a
resource-already-exists error - `sem_open`/`shm_open` are called with
`O_CREAT` and no `O_EXCL`, so they silently attach - though it does leave
the first channel's resources undisturbed. -/
theorem C4_counterexample :
    (create_shared_memory noFaults
        (create_shared_memory noFaults os0 "shm" "wsem" "rsem").2 "shm" "wsem" "rsem").1 = 0 ∧
    (create_shared_memory noFaults
        (create_shared_memory noFaults os0 "shm" "wsem" "rsem").2 "shm" "wsem" "rsem").2 =
      (create_shared_memory noFaults os0 "shm" "wsem" "rsem").2 := by
  exact ⟨rfl, rfl⟩

/-- C4, amended: a fault-free second `create_shared_memory` on the same
triple succeeds (returns `0`) and leaves the registry exactly as the first
create left it: the existing semaphores and segment are attached
unchanged, and no error is reported. -/
theorem C4_amended (s0 : OSState) (n w r : String) :
    create_shared_memory noFaults (create_shared_memory noFaults s0 n w r).2 n w r =
      (0, (create_shared_memory noFaults s0 n w r).2) := by
  rw [create_noFaults, create_noFaults]
  have hw : semHas (shm_open_creat (sem_open_creat (sem_open_creat s0 w 1) r 0) n) w = true := by
    rw [semHas_shm_open]
    exact semHas_open_mono _ _ _ _ (semHas_open_self _ _ _)
  have hr : semHas (shm_open_creat (sem_open_creat (sem_open_creat s0 w 1) r 0) n) r = true := by
    rw [semHas_shm_open]
    exact semHas_open_self _ _ _
  have hn : shmHas (shm_open_creat (sem_open_creat (sem_open_creat s0 w 1) r 0) n) n = true :=
    shmHas_open_self _ _
  rw [sem_open_creat_of_has _ _ _ hw, sem_open_creat_of_has _ _ _ hr,
    shm_open_creat_of_has _ _ hn]

/-- C5, counterexample: after `close_shared_memory` has unlinked the
triple (the semaphore and segment names are really gone), a subsequent
`open_shared_memory` on the same names returns `0` (success) instead of a
not-found error: its `sem_open`/`shm_open` calls pass `O_CREAT` and
recreate the resources. -/
theorem C5_counterexample :
    semHas (close_shared_memory
        (create_shared_memory noFaults os0 "shm" "wsem" "rsem").2 "shm" "wsem" "rsem")
      "wsem" = false ∧
    shmHas (close_shared_memory
        (create_shared_memory noFaults os0 "shm" "wsem" "rsem").2 "shm" "wsem" "rsem")
      "shm" = false ∧
    (open_shared_memory noFaults
        (close_shared_memory
          (create_shared_memory noFaults os0 "shm" "wsem" "rsem").2 "shm" "wsem" "rsem")
        "shm" "wsem" "rsem").1 = 0 := by
  exact ⟨rfl, rfl, rfl⟩

/-- C5, amended: a fault-free `open_shared_memory` succeeds whether or not
the resources exist.  When both named semaphores exist it attaches without
altering their counts (the handshake state is preserved); after
`close_shared_memory` has unlinked the triple it succeeds anyway,
recreating the semaphores with the initial handshake `(R, W) = (0, 1)`. -/
theorem C5_amended (s : OSState) (n w r : String) (vw vr : Nat)
    (hw : semVal s w = some vw) (hr : semVal s r = some vr)
    (hwr : (w == r) = false) :
    (open_shared_memory noFaults s n w r).1 = 0 ∧
    semVal (open_shared_memory noFaults s n w r).2 w = some vw ∧
    semVal (open_shared_memory noFaults s n w r).2 r = some vr ∧
    (open_shared_memory noFaults (close_shared_memory s n w r) n w r).1 = 0 ∧
    semVal (open_shared_memory noFaults (close_shared_memory s n w r) n w r).2 w = some 1 ∧
    semVal (open_shared_memory noFaults (close_shared_memory s n w r) n w r).2 r = some 0 := by
  have hsw : semHas s w = true := semHas_of_semVal _ _ _ hw
  have hsr : semHas s r = true := semHas_of_semVal _ _ _ hr
  have hCw : semHas (close_shared_memory s n w r) w = false := by
    unfold close_shared_memory
    exact semHas_unlink_false _ _ _ (semHas_unlink_self _ _)
  have hCr : semHas (close_shared_memory s n w r) r = false :=
    semHas_unlink_self _ _
  rw [open_noFaults, open_noFaults]
  rw [sem_open_creat_of_has _ _ _ hsw, sem_open_creat_of_has _ _ _ hsr]
  refine ⟨rfl, ?_, ?_, rfl, ?_, ?_⟩
  · rw [semVal_shm_open]; exact hw
  · rw [semVal_shm_open]; exact hr
  · rw [semVal_shm_open]
    exact semVal_open_pres _ _ _ _ _ (semVal_open_absent _ _ _ hCw)
  · rw [semVal_shm_open]
    exact semVal_open_absent _ _ _ (semHas_open_other _ _ _ _ hwr hCr)

/-- Witness for C5's amended claim at a concrete registry holding both
semaphores. -/
theorem C5_amended_witness :
    (open_shared_memory noFaults (OSState.mk [("wsem", 5), ("rsem", 7)] ["shm"])
      "shm" "wsem" "rsem").1 = 0 ∧
    semVal (open_shared_memory noFaults (OSState.mk [("wsem", 5), ("rsem", 7)] ["shm"])
      "shm" "wsem" "rsem").2 "wsem" = some 5 ∧
    semVal (open_shared_memory noFaults (OSState.mk [("wsem", 5), ("rsem", 7)] ["shm"])
      "shm" "wsem" "rsem").2 "rsem" = some 7 ∧
    (open_shared_memory noFaults
      (close_shared_memory (OSState.mk [("wsem", 5), ("rsem", 7)] ["shm"]) "shm" "wsem" "rsem")
      "shm" "wsem" "rsem").1 = 0 ∧
    semVal (open_shared_memory noFaults
      (close_shared_memory (OSState.mk [("wsem", 5), ("rsem", 7)] ["shm"]) "shm" "wsem" "rsem")
      "shm" "wsem" "rsem").2 "wsem" = some 1 ∧
    semVal (open_shared_memory noFaults
      (close_shared_memory (OSState.mk [("wsem", 5), ("rsem", 7)] ["shm"]) "shm" "wsem" "rsem")
      "shm" "wsem" "rsem").2 "rsem" = some 0 :=
  C5_amended (OSState.mk [("wsem", 5), ("rsem", 7)] ["shm"]) "shm" "wsem" "rsem" 5 7
    rfl rfl (by decide)

/-- C8: whenever any step of `create_shared_memory` fails (writer
semaphore, reader semaphore, segment, sizing, or mapping), every resource
acquired earlier in that same call is unlinked before the error is
returned: starting from a registry where none of the three names exists,
any faulted create that returns nonzero leaves all three names absent. -/
theorem C8_create_rollback (f : Faults) (s0 : OSState) (n w r : String)
    (_hw : semHas s0 w = false) (hr : semHas s0 r = false) (hn : shmHas s0 n = false)
    (hfail : (create_shared_memory f s0 n w r).1 ≠ 0) :
    semHas (create_shared_memory f s0 n w r).2 w = false ∧
    semHas (create_shared_memory f s0 n w r).2 r = false ∧
    shmHas (create_shared_memory f s0 n w r).2 n = false := by
  unfold create_shared_memory at hfail ⊢
  split_ifs at hfail ⊢ with h1 h2 h3 h4 h5
  · exact ⟨semHas_unlink_self _ _,
      semHas_unlink_false _ _ _ hr,
      by rw [shmHas_sem_unlink]; exact hn⟩
  · exact ⟨semHas_unlink_self _ _,
      semHas_unlink_false _ _ _ (semHas_unlink_self _ _),
      by rw [shmHas_sem_unlink, shmHas_sem_unlink, shmHas_sem_open]; exact hn⟩
  · refine ⟨?_, ?_, shmHas_unlink_self _ _⟩
    · rw [semHas_shm_unlink]
      exact semHas_unlink_false _ _ _ (semHas_unlink_self _ _)
    · rw [semHas_shm_unlink]
      exact semHas_unlink_self _ _
  · refine ⟨?_, semHas_unlink_self _ _, ?_⟩
    · exact semHas_unlink_false _ _ _ (semHas_unlink_self _ _)
    · rw [shmHas_sem_unlink, shmHas_sem_unlink]
      exact shmHas_unlink_self _ _
  · refine ⟨?_, ?_, shmHas_unlink_self _ _⟩
    · rw [semHas_shm_unlink]
      exact semHas_unlink_false _ _ _ (semHas_unlink_self _ _)
    · rw [semHas_shm_unlink]
      exact semHas_unlink_self _ _
  · simp at hfail

/-- Witness for C8 with an injected `mmap` failure on the empty registry. -/
theorem C8_create_rollback_witness :
    semHas (create_shared_memory (Faults.mk false false false false false true)
      os0 "shm" "wsem" "rsem").2 "wsem" = false ∧
    semHas (create_shared_memory (Faults.mk false false false false false true)
      os0 "shm" "wsem" "rsem").2 "rsem" = false ∧
    shmHas (create_shared_memory (Faults.mk false false false false false true)
      os0 "shm" "wsem" "rsem").2 "shm" = false :=
  C8_create_rollback (Faults.mk false false false false false true) os0 "shm" "wsem" "rsem"
    rfl rfl rfl (by decide)

end SharedMemory
